import Mathlib

set_option maxRecDepth 8192
set_option maxHeartbeats 1000000

/-!
Shallow embedding of the spendwise-alpha merchant categorization pipeline
(src/categorize.py together with the resolution logic of src/app.py).

Conventions of the embedding:
- Python strings are Lean `String` with ASCII semantics for case mapping
  (`str.upper` / `str.lower` agree with `Char.toUpper` / `Char.toLower` on ASCII).
- The fuzzywuzzy scorer `fuzz.token_set_ratio` (together with difflib
  SequenceMatcher, which it invokes) is embedded concretely; difflib autojunk
  only changes behaviour on strings of 200 or more characters, which are out of
  the modelled range. The float rounding `int(round(x))` is embedded as exact
  rational rounding half to even.
- Network effects are oracle values: each external call is a parameter holding
  either an exception (exceptions cover network errors, timeouts and parse
  failures, all caught by the same handler) or a decoded response.
- The durable CSV store is a list of (merchant, category) string rows; the cell
  encoding round-trips exactly (pandas type re-inference on read is out of model).
- `time.sleep` throttling and the Streamlit UI are not modelled; the pipeline
  steps of app.py are modelled as pure functions on the batch.
-/

/-! ## Python string primitives -/

/-- Characters treated as whitespace by Python `str.strip` and `str.split`. -/
def pyIsSpace (c : Char) : Bool :=
  c == ' ' || c == '\t' || c == '\n' || c == '\r' || c == '\x0b' || c == '\x0c'

/-- Python `str.upper`, ASCII semantics. -/
def pyUpper (s : String) : String := ⟨s.data.map Char.toUpper⟩

/-- Python `str.lower`, ASCII semantics. -/
def pyLower (s : String) : String := ⟨s.data.map Char.toLower⟩

/-- Python `str.strip` on a character list. -/
def pyStripList (l : List Char) : List Char :=
  ((l.dropWhile pyIsSpace).reverse.dropWhile pyIsSpace).reverse

/-- Python `str.strip`. -/
def pyStrip (s : String) : String := ⟨pyStripList s.data⟩

/-- A word character in the sense of the regex class backslash-w
(ASCII letters, digits, underscore). -/
def isPyWordChar (c : Char) : Bool := c.isAlphanum || c == '_'

/-- Python `str.split()` helper: split on runs of whitespace, dropping empties. -/
def splitWsAux : List Char → List Char → List (List Char)
  | [], acc => if acc.isEmpty then [] else [acc.reverse]
  | c :: cs, acc =>
    if pyIsSpace c then
      if acc.isEmpty then splitWsAux cs [] else acc.reverse :: splitWsAux cs []
    else splitWsAux cs (c :: acc)

/-- Python `str.split()` (no separator argument). -/
def pySplitWs (s : String) : List String := (splitWsAux s.data []).map (fun l => ⟨l⟩)

/-- Lexicographic comparison of strings by character code points
(Python string `<`). -/
def charListLt : List Char → List Char → Bool
  | [], [] => false
  | [], _ :: _ => true
  | _ :: _, [] => false
  | a :: as, b :: bs => if a = b then charListLt as bs else decide (a.toNat < b.toNat)

/-- Insertion step for sorting strings ascending. -/
def insertSorted (x : String) : List String → List String
  | [] => [x]
  | y :: ys => if charListLt y.data x.data then y :: insertSorted x ys else x :: y :: ys

/-- Python `sorted` on a list of strings (ascending by code points). -/
def sortStrings : List String → List String
  | [] => []
  | x :: xs => insertSorted x (sortStrings xs)

/-- First-occurrence deduplication with explicit fuel (fuel `l.length` always
suffices: each step recurses on a filtered, hence no longer, tail). Models the
iteration order of building a Python set and of pandas drop_duplicates. -/
def dedupFirstFuel : Nat → List String → List String
  | 0, _ => []
  | _ + 1, [] => []
  | fuel + 1, x :: xs => x :: dedupFirstFuel fuel (xs.filter (fun y => y != x))

/-- First-occurrence deduplication. -/
def dedupFirst (l : List String) : List String := dedupFirstFuel l.length l

/-- Python `" ".join`. -/
def joinSpace : List String → String
  | [] => ""
  | [x] => x
  | x :: y :: xs => x ++ " " ++ joinSpace (y :: xs)

/-! ## fuzzywuzzy / difflib embedding -/

/-- fuzzywuzzy `utils.full_process`: replace every character that is not a word
character by a space, lowercase, then strip. -/
def fullProcess (s : String) : String :=
  pyStrip (pyLower ⟨s.data.map (fun c => if isPyWordChar c then c else ' ')⟩)

/-- Length of the longest common prefix of two character lists. -/
def commonPrefixLen : List Char → List Char → Nat
  | a :: as, b :: bs => if a = b then commonPrefixLen as bs + 1 else 0
  | _, _ => 0

/-- difflib `SequenceMatcher.find_longest_match` (no junk): the triple
(i, j, size) of a longest matching block, ties broken by smallest i,
then smallest j. -/
def findLongestMatch (a b : List Char) : Nat × Nat × Nat :=
  (List.range a.length).foldl (fun best i =>
    (List.range b.length).foldl (fun best2 j =>
      let k := commonPrefixLen (a.drop i) (b.drop j)
      if best2.2.2 < k then (i, j, k) else best2) best) (0, 0, 0)

/-- Total size of the matching blocks of difflib SequenceMatcher, computed by
the recursive divide at the longest match. Fuel `a.length + b.length` always
suffices since each recursion strictly shrinks the combined length. -/
def matchingTotalFuel : Nat → List Char → List Char → Nat
  | 0, _, _ => 0
  | fuel + 1, a, b =>
    let f := findLongestMatch a b
    if f.2.2 = 0 then 0
    else
      matchingTotalFuel fuel (a.take f.1) (b.take f.2.1) + f.2.2 +
        matchingTotalFuel fuel (a.drop (f.1 + f.2.2)) (b.drop (f.2.1 + f.2.2))

/-- Total number of matching characters of difflib SequenceMatcher. -/
def matchingTotal (a b : List Char) : Nat := matchingTotalFuel (a.length + b.length) a b

/-- Python `int(round(num / den))` on an exact rational, rounding half to even. -/
def roundHalfEven (num den : Nat) : Nat :=
  let q := num / den
  let r := num % den
  if 2 * r < den then q
  else if den < 2 * r then q + 1
  else if q % 2 = 0 then q else q + 1

/-- fuzzywuzzy `fuzz.ratio` on two already-processed strings:
round(200 * matches / total length), 100 when both strings are empty. -/
def ratioScore (s1 s2 : String) : Nat :=
  let total := s1.data.length + s2.data.length
  if total = 0 then 100
  else roundHalfEven (200 * matchingTotal s1.data s2.data) total

/-- fuzzywuzzy `fuzz.token_set_ratio` (full_process enabled, as used through
`process.extractOne`): compare the sorted token intersection against the two
sorted token unions and take the best plain ratio. -/
def tokenSetScore (s1 s2 : String) : Nat :=
  let p1 := fullProcess s1
  let p2 := fullProcess s2
  if p1 = "" then 0
  else if p2 = "" then 0
  else
    let tokens1 := dedupFirst (pySplitWs p1)
    let tokens2 := dedupFirst (pySplitWs p2)
    let inBoth := sortStrings (tokens1.filter (fun t => tokens2.contains t))
    let diff1to2 := sortStrings (tokens1.filter (fun t => !tokens2.contains t))
    let diff2to1 := sortStrings (tokens2.filter (fun t => !tokens1.contains t))
    let sorted_sect := pyStrip (joinSpace inBoth)
    let combined_1to2 := pyStrip (joinSpace inBoth ++ " " ++ joinSpace diff1to2)
    let combined_2to1 := pyStrip (joinSpace inBoth ++ " " ++ joinSpace diff2to1)
    max (ratioScore sorted_sect combined_1to2)
      (max (ratioScore sorted_sect combined_2to1)
        (ratioScore combined_1to2 combined_2to1))

/-- The max-by-score loop of fuzzywuzzy `process.extractOne`: the first choice
reaching the maximal score wins (strict improvement replaces). -/
def bestFold (score : String → Nat) (b : String × Nat) (cs : List String) : String × Nat :=
  cs.foldl (fun best ch => if best.2 < score ch then (ch, score ch) else best) b

/-- fuzzywuzzy `process.extractOne` with the default full_process processor and
scorer `fuzz.token_set_ratio` (score_cutoff 0). -/
def extractOne (query : String) (choices : List String) : Option (String × Nat) :=
  match choices with
  | [] => none
  | c :: cs => some (bestFold (tokenSetScore query) (c, tokenSetScore query c) cs)

/-! ## MerchantCategorizer (src/categorize.py lines 31-78) -/

/-- One row of the in-memory map_df: merchant, category, merchant_norm. -/
structure MerchantRecord where
  merchant : String
  category : String
  merchant_norm : String
deriving DecidableEq

/-- The in-memory state of MerchantCategorizer: the rows of map_df in order. -/
structure MerchantCategorizer where
  records : List MerchantRecord
deriving DecidableEq

/-- The normalization `str(x).upper().strip()` used for merchant keys. -/
def normKey (s : String) : String := pyStrip (pyUpper s)

/-- `MerchantCategorizer._best_match` (categorize.py lines 54-59). -/
def MerchantCategorizer.best_match (m : MerchantCategorizer) (desc : String)
    (threshold : Nat := 85) : Option String × Nat :=
  if m.records.isEmpty then (none, 0)
  else
    match extractOne (normKey desc) (m.records.map (fun r => r.merchant_norm)) with
    | none => (none, 0)
    | some (mt, score) => if threshold ≤ score then (some mt, score) else (none, score)

/-- `MerchantCategorizer.get_category` (categorize.py lines 61-66): the iloc[0]
row lookup is the first stored record whose merchant_norm equals the match. -/
def MerchantCategorizer.get_category (m : MerchantCategorizer) (description : String) :
    Option String :=
  match (m.best_match description).1 with
  | none => none
  | some mt => (m.records.find? (fun r => r.merchant_norm == mt)).map (fun r => r.category)

/-- The row update `map_df.loc[exists, "category"] = category`: rows whose
merchant_norm equals the key get the new category, all other rows and all
other columns are untouched. -/
def updCategory (key c : String) (r : MerchantRecord) : MerchantRecord :=
  if r.merchant_norm == key then { r with category := c } else r

/-- `MerchantCategorizer.learn` (categorize.py lines 68-78): overwrite the
category of every row whose merchant_norm equals the key, else append. -/
def MerchantCategorizer.learn (m : MerchantCategorizer) (merchant_raw category : String) :
    MerchantCategorizer :=
  if m.records.any (fun r => r.merchant_norm == normKey merchant_raw) then
    ⟨m.records.map (updCategory (normKey merchant_raw) category)⟩
  else
    ⟨m.records ++ [⟨merchant_raw, category, normKey merchant_raw⟩]⟩

/-- `MerchantCategorizer.save` (categorize.py lines 50-52): the rows written to
the durable store, keeping only the merchant and category columns. -/
def MerchantCategorizer.save (m : MerchantCategorizer) : List (String × String) :=
  m.records.map (fun r => (r.merchant, r.category))

/-- `MerchantCategorizer._load_map` (categorize.py lines 37-48) reading an
existing store: merchant_norm is recomputed from the merchant column. -/
def loadFromRows (rows : List (String × String)) : MerchantCategorizer :=
  ⟨rows.map (fun p => ⟨p.1, p.2, normKey p.1⟩)⟩

/-! ## Keyword rules (categorize.py lines 19-29) and their evaluation loop -/

/-- Test whether the phrase occurs at the head of the text with a word boundary
after it (the boundary before is checked by the caller). -/
def wordMatchAt (phrase text : List Char) : Bool :=
  match phrase, text with
  | [], rest =>
    match rest with
    | [] => true
    | c :: _ => !isPyWordChar c
  | _ :: _, [] => false
  | p :: ps, t :: ts => if p = t then wordMatchAt ps ts else false

/-- `re.search` scan for one alternative phrase of a case-insensitively compiled
pattern delimited by word boundaries; `atBoundary` records whether the previous
character (if any) is a non-word character. -/
def wordSearchAux (phrase : List Char) : List Char → Bool → Bool
  | [], _ => false
  | c :: cs, atBoundary =>
    (atBoundary && wordMatchAt phrase (c :: cs)) || wordSearchAux phrase cs (!isPyWordChar c)

/-- Whether one of the lowercase alternative phrases of a keyword pattern
matches the text at a word boundary, case-insensitively. -/
def patternMatches (phrases : List String) (text : String) : Bool :=
  phrases.any (fun p => wordSearchAux p.data (pyLower text).data true)

/-- KEYWORDS_TO_CATEGORY (categorize.py lines 19-29) with each regex alternation
expanded into its literal alternatives (airlines? and ride ?hail expanded). -/
def KEYWORDS_TO_CATEGORY : List (List String × String) := [
  (["supermarket", "grocery", "grocer", "market"], "Groceries"),
  (["cafe", "coffee", "restaurant", "bar", "pub", "pizza", "burger", "kitchen", "bakery"],
    "Food & Drink"),
  (["uber", "lyft", "taxi", "ridehail", "ride hail", "cab", "metro", "subway", "train",
    "bus", "transit", "fuel", "gas station"], "Transport"),
  (["pharmacy", "drugstore", "clinic", "dental", "optical", "health", "wellness"], "Health"),
  (["hotel", "airline", "airlines", "flight", "airways", "hostel", "bnb", "booking",
    "travel", "tour", "resort"], "Travel"),
  (["cinema", "theater", "theatre", "movie", "concert", "museum", "park", "stadium",
    "ticket"], "Entertainment"),
  (["utility", "electric", "water", "gas bill", "internet", "broadband", "mobile",
    "cellular", "phone"], "Bills & Utilities"),
  (["college", "university", "tuition", "course", "class", "learning", "education",
    "school"], "Education"),
  (["amazon", "target", "walmart", "costco", "mall", "boutique", "store", "retail",
    "shop", "outlet"], "Shopping")]

/-- First-match-wins evaluation of an ordered rule list, as in the keyword scan
loops of `_from_osm` and `_from_wikipedia` (categorize.py lines 103-105, 118-120). -/
def firstMatch (rules : List (List String × String)) (text : String) : Option String :=
  match rules with
  | [] => none
  | (pats, cat) :: rest => if patternMatches pats text then some cat else firstMatch rest text

/-- The keyword classification applied to descriptive text: the category of the
first matching rule of KEYWORDS_TO_CATEGORY, None when no rule matches. -/
def classifyKeywords (text : String) : Option String := firstMatch KEYWORDS_TO_CATEGORY text

/-! ## OnlineGuesser (categorize.py lines 80-127) -/

/-- The fields read from the first element of the nominatim JSON response. -/
structure OsmItem where
  display_name : Option String
  clazz : Option String
  typ : Option String
deriving DecidableEq

/-- Outcome of the OSM HTTP call: an exception (network error, timeout, JSON
parse failure) or a decoded response with its status code and item list. -/
inductive HttpResult where
  | exn : HttpResult
  | response (status_code : Nat) (items : List OsmItem)
deriving DecidableEq

/-- The hint text built by `_from_osm`: display_name, class and type fields of
the first item joined by single spaces, missing fields as empty strings. -/
def osmHint (item : OsmItem) : String :=
  item.display_name.getD "" ++ " " ++ item.clazz.getD "" ++ " " ++ item.typ.getD ""

/-- `OnlineGuesser._from_osm` (categorize.py lines 89-108) as a function of the
HTTP outcome. -/
def from_osm (r : HttpResult) : Option String :=
  match r with
  | .exn => none
  | .response status items =>
    if status ≠ 200 then none
    else
      match items with
      | [] => none
      | item :: _ => classifyKeywords (osmHint item)

/-- Outcome of the Wikipedia lookup: an exception anywhere in the try block, or
the search result list together with the summary of the fetched page (None for
a null summary). -/
inductive WikiOutcome where
  | exn : WikiOutcome
  | results (found : List String) (summary : Option String)
deriving DecidableEq

/-- Python `s[:1000]`. -/
def pyTake1000 (s : String) : String := ⟨s.data.take 1000⟩

/-- `OnlineGuesser._from_wikipedia` (categorize.py lines 110-123) as a function
of the lookup outcome. -/
def from_wikipedia (w : WikiOutcome) : Option String :=
  match w with
  | .exn => none
  | .results found summary =>
    match found with
    | [] => none
    | _ :: _ => classifyKeywords (pyTake1000 (summary.getD ""))

/-- `OnlineGuesser.guess` (categorize.py lines 125-127) with an explicit record
of whether the Wikipedia source was consulted (second component). The Python
`or` treats an empty string as falsy, which the branch reproduces; the
`time.sleep` throttle is not modelled. -/
def guessTraced (r : HttpResult) (w : WikiOutcome) : Option String × Bool :=
  match from_osm r with
  | some s => if s = "" then (from_wikipedia w, true) else (some s, false)
  | none => (from_wikipedia w, true)

/-- `OnlineGuesser.guess`: the value returned to the pipeline. -/
def guess (r : HttpResult) (w : WikiOutcome) : Option String := (guessTraced r w).1

/-- The failure modes of the OSM source named by the spec: network error or
timeout or parse failure (exception), non-200 status, empty result set. -/
def osmFailed : HttpResult → Bool
  | .exn => true
  | .response status items => decide (status ≠ 200) || items.isEmpty

/-- The failure modes of the Wikipedia source named by the spec: exception
anywhere in the lookup, or an empty search result set. -/
def wikiFailed : WikiOutcome → Bool
  | .exn => true
  | .results found _ => found.isEmpty

/-- Modelled from the spec: the describe step of the place source (spec 4.3,
source 1) — on a successful lookup, the top result with its display label and
place-type fields concatenated into one text blob; None on any failure. The
source code has no separate describe function (it classifies inside each
source); this definition renders the claim C5 wording "the place source
produces text" for comparison with `from_osm`. -/
def osmDescribe (r : HttpResult) : Option String :=
  match r with
  | .response 200 (item :: _) => some (osmHint item)
  | _ => none

/-! ## Resolution pipeline (src/app.py lines 43-78) -/

/-- The external world as seen by the pipeline: the outcome of each source call,
as a function of the queried merchant name. -/
structure Oracle where
  osmAt : String → HttpResult
  wikiAt : String → WikiOutcome

/-- `web.guess(m)` under a given oracle. -/
def webGuess (o : Oracle) (name : String) : Option String :=
  guess (o.osmAt name) (o.wikiAt name)

/-- One working-set row as the pipeline sees it: merchant description and the
category assigned so far (None = unresolved). -/
structure PRow where
  merchant : String
  category : Option String
deriving DecidableEq

/-- app.py line 54: the saved map is applied per row. -/
def applyMemory (cat : MerchantCategorizer) (merchants : List String) : List PRow :=
  merchants.map (fun mm => ⟨mm, cat.get_category mm⟩)

/-- app.py lines 57-61: when online lookup is enabled, every still-unknown ROW
gets one `web.guess` call (the apply is per row, not per distinct merchant). -/
def applyOnline (o : Oracle) (enableOnline : Bool) (rows : List PRow) : List PRow :=
  if enableOnline then
    rows.map (fun r =>
      match r.category with
      | some c => ⟨r.merchant, some c⟩
      | none => ⟨r.merchant, webGuess o r.merchant⟩)
  else rows

/-- Number of `web.guess` calls the online step issues for merchant m: one per
row of m that is still unknown after the memory step. -/
def onlineCallsFor (enableOnline : Bool) (rows : List PRow) (m : String) : Nat :=
  if enableOnline then
    (rows.filter (fun r => r.merchant == m && r.category.isNone)).length
  else 0

/-- app.py line 67: the distinct still-unknown merchants surfaced for manual
resolution (drop_duplicates keeps first occurrences). -/
def unknownMerchants (rows : List PRow) : List String :=
  dedupFirst ((rows.filter (fun r => r.category.isNone)).map (fun r => r.merchant))

/-- Number of manual prompts shown for merchant m. -/
def manualPromptsFor (rows : List PRow) (m : String) : Nat :=
  (unknownMerchants rows).count m

/-- Total number of external `web.guess` calls issued for merchant m by one run
of the pipeline: the per-row calls of the online step plus the one extra call
made inside each manual prompt expander (app.py line 70) when online is on. -/
def externalCallsFor (cat : MerchantCategorizer) (o : Oracle) (enableOnline : Bool)
    (batch : List String) (m : String) : Nat :=
  let r1 := applyMemory cat batch
  let r2 := applyOnline o enableOnline r1
  onlineCallsFor enableOnline r1 m + (if enableOnline then manualPromptsFor r2 m else 0)

/-- The category a row ends up with after the memory and online steps, as a
function of its merchant description. -/
def resolveRow (cat : MerchantCategorizer) (o : Oracle) (enableOnline : Bool)
    (mm : String) : Option String :=
  match cat.get_category mm with
  | some c => some c
  | none => if enableOnline then webGuess o mm else none

/-! ## Input batch normalization (app.py lines 43-47) -/

/-- The date cell of a raw row, as seen by `parser.parse(str(x), fuzzy=True)`
inside the apply: either a parsed date (abstracted to an integer timestamp) or
an input on which dateutil raises ParserError. -/
inductive DateCell where
  | parsed (d : Int) : DateCell
  | unparseable : DateCell
deriving DecidableEq

/-- The amount cell, as seen by `pd.to_numeric(errors="coerce")`: a numeric
value (abstracted to an integer) or NaN. -/
inductive AmountCell where
  | numeric (a : Int) : AmountCell
  | nan : AmountCell
deriving DecidableEq

/-- One raw input row; merchantCell is the `str(x)` rendering of the
description cell (a missing cell renders as the string nan, never as NA). -/
structure RawRow where
  dateCell : DateCell
  merchantCell : String
  amountCell : AmountCell
deriving DecidableEq

/-- One normalized working-set transaction. -/
structure Txn where
  date : Int
  merchant : String
  amount : Int
deriving DecidableEq

/-- app.py lines 43-47. The date column is built by an eager apply of
`parser.parse`, so one unparseable date raises out of the whole construction
(the errors="coerce" of the enclosing to_datetime never sees it): the batch
aborts. Otherwise the merchant is str-stripped (an empty string survives: it
is not NA, so dropna keeps the row) and rows whose amount coerced to NaN are
dropped by dropna. -/
def normalizeBatch (rows : List RawRow) : Except Unit (List Txn) :=
  if rows.any (fun r => r.dateCell == DateCell.unparseable) then Except.error ()
  else Except.ok (rows.filterMap (fun r =>
    match r.dateCell, r.amountCell with
    | DateCell.parsed d, AmountCell.numeric a => some ⟨d, pyStrip r.merchantCell, a⟩
    | _, _ => none))

/-- The all-failing oracle: every external call raises. -/
def failOracle : Oracle := ⟨fun _ => HttpResult.exn, fun _ => WikiOutcome.exn⟩

/-- Representation invariant of the in-memory store: merchant_norm is the
normalization of the merchant column (established by load, preserved by learn). -/
def goodState (m : MerchantCategorizer) : Prop :=
  ∀ r ∈ m.records, r.merchant_norm = normKey r.merchant

/-- The state reached from a fresh empty store by a sequence of learn calls. -/
def stateOfLearns (pairs : List (String × String)) : MerchantCategorizer :=
  pairs.foldl (fun s p => s.learn p.1 p.2) ⟨[]⟩

/-! ## Generic helper lemmas -/

/-- Fold invariant principle used for learn sequences. -/
lemma foldlInv {α β : Type} (P : β → Prop) :
    ∀ (l : List α) (b : β) (f : β → α → β), P b → (∀ acc x, P acc → P (f acc x)) →
      P (l.foldl f b) := by
  intro l
  induction l with
  | nil => intro b f hb _; exact hb
  | cons x xs ih => intro b f hb hstep; exact ih (f b x) f (hstep b x hb) hstep

lemma dedupFirstFuel_mem : ∀ (fuel : Nat) (l : List String), l.length ≤ fuel →
    ∀ a, (a ∈ dedupFirstFuel fuel l ↔ a ∈ l) := by
  intro fuel
  induction fuel with
  | zero =>
    intro l hl a
    have hnil : l = [] := List.eq_nil_of_length_eq_zero (Nat.le_zero.mp hl)
    subst hnil
    simp [dedupFirstFuel]
  | succ k ih =>
    intro l hl a
    match l with
    | [] => simp [dedupFirstFuel]
    | x :: xs =>
      have hlen : (xs.filter (fun y => y != x)).length ≤ k :=
        le_trans (List.length_filter_le _ _) (Nat.succ_le_succ_iff.mp hl)
      simp only [dedupFirstFuel, List.mem_cons, ih _ hlen a, List.mem_filter,
        bne_iff_ne, ne_eq]
      by_cases hax : a = x
      · simp [hax]
      · simp [hax]

lemma dedupFirst_mem (l : List String) (a : String) : a ∈ dedupFirst l ↔ a ∈ l :=
  dedupFirstFuel_mem l.length l (le_refl _) a

lemma dedupFirstFuel_nodup : ∀ (fuel : Nat) (l : List String), l.length ≤ fuel →
    (dedupFirstFuel fuel l).Nodup := by
  intro fuel
  induction fuel with
  | zero => intro l _; simp [dedupFirstFuel]
  | succ k ih =>
    intro l hl
    match l with
    | [] => simp [dedupFirstFuel]
    | x :: xs =>
      have hlen : (xs.filter (fun y => y != x)).length ≤ k :=
        le_trans (List.length_filter_le _ _) (Nat.succ_le_succ_iff.mp hl)
      simp only [dedupFirstFuel, List.nodup_cons]
      refine ⟨?_, ih _ hlen⟩
      intro hx
      have hmem := (dedupFirstFuel_mem k _ hlen x).mp hx
      rcases List.mem_filter.mp hmem with ⟨_, hne⟩
      simp at hne

lemma dedupFirst_nodup (l : List String) : (dedupFirst l).Nodup :=
  dedupFirstFuel_nodup l.length l (le_refl _)

lemma count_dedupFirst_le_one (l : List String) (a : String) :
    (dedupFirst l).count a ≤ 1 :=
  List.nodup_iff_count_le_one.mp (dedupFirst_nodup l) a

lemma bestFold_spec (score : String → Nat) :
    ∀ (cs : List String) (b : String × Nat), score b.1 = b.2 →
      score (bestFold score b cs).1 = (bestFold score b cs).2 ∧
      b.2 ≤ (bestFold score b cs).2 ∧
      (bestFold score b cs = b ∨ (bestFold score b cs).1 ∈ cs) ∧
      ∀ x ∈ cs, score x ≤ (bestFold score b cs).2 := by
  intro cs
  induction cs with
  | nil => intro b hb; simp [bestFold, hb]
  | cons x xs ih =>
    intro b hb
    have hstep : bestFold score b (x :: xs)
        = bestFold score (if b.2 < score x then (x, score x) else b) xs := by
      simp [bestFold]
    by_cases hb2 : b.2 < score x
    · rw [hstep, if_pos hb2]
      obtain ⟨h1, h2, h3, h4⟩ := ih (x, score x) rfl
      refine ⟨h1, le_trans (le_of_lt hb2) h2, ?_, ?_⟩
      · rcases h3 with h3 | h3
        · right; rw [h3]; exact List.mem_cons_self _ _
        · right; exact List.mem_cons_of_mem _ h3
      · intro y hy
        rcases List.mem_cons.mp hy with hy | hy
        · subst hy; exact h2
        · exact h4 y hy
    · rw [hstep, if_neg hb2]
      obtain ⟨h1, h2, h3, h4⟩ := ih b hb
      refine ⟨h1, h2, ?_, ?_⟩
      · rcases h3 with h3 | h3
        · left; exact h3
        · right; exact List.mem_cons_of_mem _ h3
      · intro y hy
        rcases List.mem_cons.mp hy with hy | hy
        · subst hy; exact le_trans (Nat.le_of_not_lt hb2) h2
        · exact h4 y hy

lemma extractOne_spec (q : String) (c : String) (cs : List String) :
    ∃ k s, extractOne q (c :: cs) = some (k, s) ∧ k ∈ c :: cs ∧ tokenSetScore q k = s ∧
      ∀ x ∈ c :: cs, tokenSetScore q x ≤ s := by
  obtain ⟨h1, h2, h3, h4⟩ := bestFold_spec (tokenSetScore q) cs (c, tokenSetScore q c) rfl
  refine ⟨(bestFold (tokenSetScore q) (c, tokenSetScore q c) cs).1,
    (bestFold (tokenSetScore q) (c, tokenSetScore q c) cs).2, rfl, ?_, h1, ?_⟩
  · rcases h3 with h3 | h3
    · rw [h3]; exact List.mem_cons_self _ _
    · exact List.mem_cons_of_mem _ h3
  · intro x hx
    rcases List.mem_cons.mp hx with hx | hx
    · subst hx; exact h2
    · exact h4 x hx

lemma firstMatch_none_iff : ∀ (rules : List (List String × String)) (t : String),
    firstMatch rules t = none ↔ ∀ pc ∈ rules, patternMatches pc.1 t = false := by
  intro rules
  induction rules with
  | nil => intro t; simp [firstMatch]
  | cons pc rest ih =>
    intro t
    obtain ⟨pats, cat⟩ := pc
    have hred : firstMatch ((pats, cat) :: rest) t
        = if patternMatches pats t then some cat else firstMatch rest t := rfl
    cases h : patternMatches pats t with
    | true =>
      rw [hred, if_pos h]
      constructor
      · intro habs; exact absurd habs (by simp)
      · intro hall
        have hc := hall ⟨pats, cat⟩ (List.mem_cons_self _ _)
        rw [h] at hc
        exact absurd hc (by simp)
    | false =>
      rw [hred, if_neg (by simp [h]), ih t]
      constructor
      · intro hall pc hpc
        rcases List.mem_cons.mp hpc with hpc | hpc
        · rw [hpc]; exact h
        · exact hall pc hpc
      · intro hall pc hpc
        exact hall pc (List.mem_cons_of_mem _ hpc)

lemma firstMatch_mem : ∀ (rules : List (List String × String)) (t : String) (c : String),
    firstMatch rules t = some c → c ∈ rules.map (fun pc => pc.2) := by
  intro rules
  induction rules with
  | nil => intro t c h; simp [firstMatch] at h
  | cons pc rest ih =>
    intro t c h
    obtain ⟨pats, cat⟩ := pc
    have hred : firstMatch ((pats, cat) :: rest) t
        = if patternMatches pats t then some cat else firstMatch rest t := rfl
    rw [hred] at h
    by_cases hm : patternMatches pats t = true
    · rw [if_pos hm] at h
      injection h with h
      simp [← h]
    · rw [if_neg hm] at h
      simp only [List.map_cons]
      exact List.mem_cons_of_mem _ (ih t c h)

lemma firstMatch_at : ∀ (rules : List (List String × String)) (t : String) (i : Nat)
    (hi : i < rules.length),
    patternMatches (rules.get ⟨i, hi⟩).1 t = true →
    (∀ j (hj : j < i), patternMatches (rules.get ⟨j, Nat.lt_trans hj hi⟩).1 t = false) →
    firstMatch rules t = some (rules.get ⟨i, hi⟩).2 := by
  intro rules
  induction rules with
  | nil => intro t i hi; exact absurd hi (Nat.not_lt_zero i)
  | cons pc rest ih =>
    intro t i hi hm hb
    obtain ⟨pats, cat⟩ := pc
    have hred : firstMatch ((pats, cat) :: rest) t
        = if patternMatches pats t then some cat else firstMatch rest t := rfl
    cases i with
    | zero =>
      have hm0 : patternMatches pats t = true := hm
      rw [hred, if_pos hm0]
      rfl
    | succ n =>
      have h0 : patternMatches pats t = false := hb 0 (Nat.succ_pos n)
      rw [hred, if_neg (by simp [h0])]
      have hi2 : n < rest.length := Nat.lt_of_succ_lt_succ hi
      have hm2 : patternMatches (rest.get ⟨n, hi2⟩).1 t = true := hm
      have hb2 : ∀ j (hj : j < n),
          patternMatches (rest.get ⟨j, Nat.lt_trans hj hi2⟩).1 t = false := by
        intro j hj
        exact hb (j + 1) (Nat.succ_lt_succ hj)
      exact ih t n hi2 hm2 hb2

/-! ## Lemmas about learn, save and load -/

lemma updCategory_merchant (key c : String) (r : MerchantRecord) :
    (updCategory key c r).merchant = r.merchant := by
  unfold updCategory
  cases h : r.merchant_norm == key <;> simp [h]

lemma updCategory_norm (key c : String) (r : MerchantRecord) :
    (updCategory key c r).merchant_norm = r.merchant_norm := by
  unfold updCategory
  cases h : r.merchant_norm == key <;> simp [h]

lemma learn_records_present (m : MerchantCategorizer) (mr c : String)
    (h : m.records.any (fun r => r.merchant_norm == normKey mr) = true) :
    (m.learn mr c).records = m.records.map (updCategory (normKey mr) c) := by
  unfold MerchantCategorizer.learn
  rw [if_pos h]

lemma learn_records_absent (m : MerchantCategorizer) (mr c : String)
    (h : m.records.any (fun r => r.merchant_norm == normKey mr) = false) :
    (m.learn mr c).records = m.records ++ [⟨mr, c, normKey mr⟩] := by
  unfold MerchantCategorizer.learn
  rw [if_neg (by simp [h])]

lemma learn_nodup (m : MerchantCategorizer) (mr c : String)
    (h : (m.records.map (fun r => r.merchant_norm)).Nodup) :
    ((m.learn mr c).records.map (fun r => r.merchant_norm)).Nodup := by
  cases hany : m.records.any (fun r => r.merchant_norm == normKey mr)
  · rw [learn_records_absent m mr c hany, List.map_append, List.nodup_append]
    refine ⟨h, by simp, ?_⟩
    intro x hx hx2
    simp only [List.map_cons, List.map_nil, List.mem_singleton] at hx2
    rw [List.any_eq_false] at hany
    rcases List.mem_map.mp hx with ⟨r, hr, hnr⟩
    exact hany r hr (beq_iff_eq.mpr (hnr.trans hx2))
  · rw [learn_records_present m mr c hany, List.map_map]
    have heq : ∀ r ∈ m.records,
        ((fun r => r.merchant_norm) ∘ updCategory (normKey mr) c) r
          = (fun r => r.merchant_norm) r := by
      intro r _
      simp only [Function.comp_apply]
      exact updCategory_norm _ _ r
    rw [List.map_congr_left heq]
    exact h

lemma learn_goodState (m : MerchantCategorizer) (mr c : String) (h : goodState m) :
    goodState (m.learn mr c) := by
  intro r hr
  cases hany : m.records.any (fun x => x.merchant_norm == normKey mr)
  · rw [learn_records_absent m mr c hany] at hr
    rcases List.mem_append.mp hr with hr | hr
    · exact h r hr
    · simp only [List.mem_singleton] at hr
      subst hr
      rfl
  · rw [learn_records_present m mr c hany] at hr
    rcases List.mem_map.mp hr with ⟨x, hx, hxr⟩
    subst hxr
    rw [updCategory_norm, updCategory_merchant]
    exact h x hx

lemma countP_updCategory (key c : String) (l : List MerchantRecord) :
    ((l.map (updCategory key c)).countP (fun r => r.merchant_norm == key))
      = l.countP (fun r => r.merchant_norm == key) := by
  induction l with
  | nil => simp
  | cons r rs ih =>
    simp only [List.map_cons, List.countP_cons, ih]
    congr 1
    rw [updCategory_norm]

lemma learn_countP (m : MerchantCategorizer) (mr c : String) :
    ((m.learn mr c).records.countP (fun r => r.merchant_norm == normKey mr))
      = if m.records.any (fun r => r.merchant_norm == normKey mr) then
          m.records.countP (fun r => r.merchant_norm == normKey mr)
        else m.records.countP (fun r => r.merchant_norm == normKey mr) + 1 := by
  cases hany : m.records.any (fun r => r.merchant_norm == normKey mr)
  · rw [learn_records_absent m mr c hany, List.countP_append]
    simp [List.countP_cons]
  · rw [learn_records_present m mr c hany, countP_updCategory]
    simp

lemma countP_norm_le_one (l : List MerchantRecord) (key : String)
    (h : (l.map (fun r => r.merchant_norm)).Nodup) :
    l.countP (fun r => r.merchant_norm == key) ≤ 1 := by
  induction l with
  | nil => simp
  | cons r rs ih =>
    simp only [List.map_cons, List.nodup_cons] at h
    obtain ⟨hnotin, hnd⟩ := h
    rw [List.countP_cons]
    cases hpr : r.merchant_norm == key
    · simpa using ih hnd
    · have hkey : r.merchant_norm = key := eq_of_beq hpr
      have hzero : rs.countP (fun x => x.merchant_norm == key) = 0 := by
        rw [List.countP_eq_zero]
        intro x hx hcon
        have hxe : x.merchant_norm = key := eq_of_beq hcon
        exact hnotin (List.mem_map.mpr ⟨x, hx, hxe.trans hkey.symm⟩)
      simp [hzero, hpr]

lemma countP_pos_any (l : List MerchantRecord) (p : MerchantRecord → Bool)
    (h : 0 < l.countP p) : l.any p = true := by
  rw [List.any_eq_true]
  rcases List.countP_pos_iff.mp h with ⟨a, ha, hpa⟩
  exact ⟨a, ha, hpa⟩

lemma load_saved_state (m : MerchantCategorizer) (hg : goodState m) :
    loadFromRows m.save = m := by
  obtain ⟨recs⟩ := m
  unfold loadFromRows MerchantCategorizer.save
  congr 1
  rw [List.map_map]
  have heq : ∀ r ∈ recs,
      ((fun p => (⟨p.1, p.2, normKey p.1⟩ : MerchantRecord))
          ∘ (fun r => (r.merchant, r.category))) r = id r := by
    intro r hr
    obtain ⟨a, b, n⟩ := r
    have hn : n = normKey a := hg ⟨a, b, n⟩ hr
    simp only [Function.comp_apply, id]
    rw [hn]
  rw [List.map_congr_left heq, List.map_id]

/-! ## Lemmas about the online guesser -/

lemma from_osm_mem (r : HttpResult) (c : String) (h : from_osm r = some c) :
    c ∈ KEYWORDS_TO_CATEGORY.map (fun pc => pc.2) := by
  cases r with
  | exn => simp [from_osm] at h
  | response status items =>
    simp only [from_osm] at h
    by_cases hs : status = 200
    · rw [if_neg (by simp [hs])] at h
      cases items with
      | nil => simp at h
      | cons item rest => exact firstMatch_mem _ _ _ h
    · rw [if_pos hs] at h
      simp at h

lemma from_wikipedia_mem (w : WikiOutcome) (c : String) (h : from_wikipedia w = some c) :
    c ∈ KEYWORDS_TO_CATEGORY.map (fun pc => pc.2) := by
  cases w with
  | exn => simp [from_wikipedia] at h
  | results found summary =>
    simp only [from_wikipedia] at h
    cases found with
    | nil => simp at h
    | cons f fs => exact firstMatch_mem _ _ _ h

lemma keywordCats_ne : ∀ c ∈ KEYWORDS_TO_CATEGORY.map (fun pc => pc.2),
    c ≠ "" ∧ c ≠ "Income" ∧ c ≠ "Other" ∧ c ≠ "Uncategorized" := by decide

lemma osmFailed_none (r : HttpResult) (h : osmFailed r = true) : from_osm r = none := by
  cases r with
  | exn => rfl
  | response status items =>
    simp only [osmFailed] at h
    rw [Bool.or_eq_true] at h
    rcases h with h1 | h1
    · have hs : status ≠ 200 := of_decide_eq_true h1
      simp [from_osm, hs]
    · have hnil : items = [] := by simpa using h1
      subst hnil
      by_cases hs : status = 200 <;> simp [from_osm, hs]

lemma wikiFailed_none (w : WikiOutcome) (h : wikiFailed w = true) : from_wikipedia w = none := by
  cases w with
  | exn => rfl
  | results found summary =>
    simp only [wikiFailed] at h
    have hnil : found = [] := by simpa using h
    subst hnil
    rfl

/-! ## Lemmas about the pipeline steps -/

lemma pipeline_map (cat : MerchantCategorizer) (o : Oracle) (enable : Bool)
    (batch : List String) :
    applyOnline o enable (applyMemory cat batch)
      = batch.map (fun mm => ⟨mm, resolveRow cat o enable mm⟩) := by
  cases enable
  · simp only [applyOnline, Bool.false_eq_true, if_false, applyMemory]
    apply List.map_congr_left
    intro mm _
    unfold resolveRow
    cases hg : cat.get_category mm <;> simp [hg]
  · simp only [applyOnline, if_true, applyMemory, List.map_map]
    apply List.map_congr_left
    intro mm _
    simp only [Function.comp_apply]
    unfold resolveRow
    cases hg : cat.get_category mm <;> simp [hg]

/-! ## Claim theorems -/

/-- Claim C1: for every description and every memory state, get_category
normalizes the description by uppercasing and trimming, scores it with the
token-set similarity (0-100) against every stored merchant_key, and returns
the category of the highest-scoring record when that score is at least 85,
otherwise None; when the store is empty it returns None immediately. -/
theorem get_category_spec (m : MerchantCategorizer) (desc : String) :
    (m.records = [] → m.get_category desc = none)
  ∧ (∀ c, m.get_category desc = some c →
      ∃ r, r ∈ m.records ∧ r.category = c ∧
        85 ≤ tokenSetScore (normKey desc) r.merchant_norm ∧
        ∀ r2 ∈ m.records,
          tokenSetScore (normKey desc) r2.merchant_norm
            ≤ tokenSetScore (normKey desc) r.merchant_norm)
  ∧ ((∀ r ∈ m.records, tokenSetScore (normKey desc) r.merchant_norm < 85) →
      m.get_category desc = none)
  ∧ ((∃ r ∈ m.records, 85 ≤ tokenSetScore (normKey desc) r.merchant_norm) →
      ∃ c, m.get_category desc = some c) := by
  cases hrec : m.records with
  | nil =>
    have hempty : m.get_category desc = none := by
      unfold MerchantCategorizer.get_category MerchantCategorizer.best_match
      rw [hrec]
      simp
    refine ⟨fun _ => hempty, ?_, fun _ => hempty, ?_⟩
    · intro c hc
      rw [hempty] at hc
      exact absurd hc (by simp)
    · rintro ⟨r, hr, _⟩
      exact absurd hr (by simp)
  | cons r0 rs =>
    obtain ⟨k, s, hEx, hkmem, hks, hmax⟩ :=
      extractOne_spec (normKey desc) r0.merchant_norm (rs.map (fun r => r.merchant_norm))
    have hbm : m.best_match desc = (if 85 ≤ s then (some k, s) else (none, s)) := by
      unfold MerchantCategorizer.best_match
      rw [hrec]
      simp only [List.isEmpty_cons, List.map_cons, Bool.false_eq_true, if_false]
      rw [hEx]
    have hmemnorm : ∀ r2 ∈ r0 :: rs,
        tokenSetScore (normKey desc) r2.merchant_norm ≤ s := by
      intro r2 hr2
      apply hmax
      rcases List.mem_cons.mp hr2 with h | h
      · rw [h]; exact List.mem_cons_self _ _
      · exact List.mem_cons_of_mem _ (List.mem_map_of_mem _ h)
    by_cases h85 : 85 ≤ s
    · have hbm2 : m.best_match desc = (some k, s) := by rw [hbm, if_pos h85]
      have hkex : ∃ r, r ∈ r0 :: rs ∧ r.merchant_norm = k := by
        rcases List.mem_cons.mp hkmem with hk | hk
        · exact ⟨r0, List.mem_cons_self _ _, hk.symm⟩
        · rcases List.mem_map.mp hk with ⟨r, hr, hrk⟩
          exact ⟨r, List.mem_cons_of_mem _ hr, hrk⟩
      obtain ⟨rk, hrkmem, hrknorm⟩ := hkex
      have hfindSome : (m.records.find? (fun r => r.merchant_norm == k)).isSome := by
        rw [List.find?_isSome]
        refine ⟨rk, ?_, beq_iff_eq.mpr hrknorm⟩
        rw [hrec]
        exact hrkmem
      obtain ⟨rf, hrf⟩ := Option.isSome_iff_exists.mp hfindSome
      have hrfmem : rf ∈ r0 :: rs := by
        have := List.mem_of_find?_eq_some hrf
        rwa [hrec] at this
      have hrfnorm : rf.merchant_norm = k := by
        have hp := List.find?_some hrf
        simpa using hp
      have hsrf : tokenSetScore (normKey desc) rf.merchant_norm = s := by
        rw [hrfnorm]; exact hks
      have hgc : m.get_category desc = some rf.category := by
        have hstep : m.get_category desc
            = (m.records.find? (fun r => r.merchant_norm == k)).map
                (fun r => r.category) := by
          unfold MerchantCategorizer.get_category
          rw [hbm2]
        rw [hstep, hrf]
        rfl
      refine ⟨fun h => absurd h (by simp), ?_, ?_, fun _ => ⟨rf.category, hgc⟩⟩
      · intro c hc
        rw [hgc] at hc
        injection hc with hc
        refine ⟨rf, hrfmem, hc, ?_, ?_⟩
        · rw [hsrf]; exact h85
        · intro r2 hr2
          rw [hsrf]
          exact hmemnorm r2 hr2
      · intro hall
        have hlt := hall rf hrfmem
        rw [hsrf] at hlt
        omega
    · have hbm2 : m.best_match desc = (none, s) := by rw [hbm, if_neg h85]
      have hgc : m.get_category desc = none := by
        unfold MerchantCategorizer.get_category
        rw [hbm2]
      refine ⟨fun h => absurd h (by simp), ?_, fun _ => hgc, ?_⟩
      · intro c hc
        rw [hgc] at hc
        exact absurd hc (by simp)
      · rintro ⟨r2, hr2, hge⟩
        have hle := hmemnorm r2 hr2
        exfalso
        omega

/-- Witness for C1: on a store holding only UBER TRIP, an unrelated description
scores below the threshold everywhere and the lookup misses. -/
theorem get_category_spec_witness :
    (MerchantCategorizer.mk [⟨"Uber Trip", "Transport", "UBER TRIP"⟩]).get_category "zzqq"
      = none :=
  (get_category_spec
    (MerchantCategorizer.mk [⟨"Uber Trip", "Transport", "UBER TRIP"⟩]) "zzqq").2.2.1
    (by decide)

/-- Claim C2: when the normalized key of the merchant is already present,
learn overwrites instead of appending (the record count is unchanged); after
learning the same merchant twice exactly one stored record carries its
normalized key; and normalized merchant keys remain unique (a store with
pairwise distinct keys keeps them pairwise distinct through every learn). -/
theorem learn_idempotent_unique (m : MerchantCategorizer) (mr c : String)
    (h : (m.records.map (fun r => r.merchant_norm)).Nodup) :
    ((m.learn mr c).records.map (fun r => r.merchant_norm)).Nodup
  ∧ (m.records.any (fun r => r.merchant_norm == normKey mr) = true →
      (m.learn mr c).records.length = m.records.length)
  ∧ (((m.learn mr c).learn mr c).records.countP
      (fun r => r.merchant_norm == normKey mr) = 1) := by
  refine ⟨learn_nodup m mr c h, ?_, ?_⟩
  · intro hany
    rw [learn_records_present m mr c hany, List.length_map]
  · have hle : m.records.countP (fun r => r.merchant_norm == normKey mr) ≤ 1 :=
      countP_norm_le_one m.records (normKey mr) h
    have h1 : (m.learn mr c).records.countP (fun r => r.merchant_norm == normKey mr)
        = 1 := by
      rw [learn_countP]
      by_cases hany : m.records.any (fun r => r.merchant_norm == normKey mr) = true
      · rw [if_pos hany]
        have hpos : 0 < m.records.countP (fun r => r.merchant_norm == normKey mr) := by
          rw [List.countP_pos_iff]
          rcases List.any_eq_true.mp hany with ⟨x, hx, hpx⟩
          exact ⟨x, hx, hpx⟩
        omega
      · rw [if_neg hany]
        have hfalse : m.records.any (fun r => r.merchant_norm == normKey mr) = false := by
          simpa using hany
        have hz : m.records.countP (fun r => r.merchant_norm == normKey mr) = 0 := by
          rw [List.countP_eq_zero, ← List.any_eq_false]
          exact hfalse
        omega
    have hany2 : (m.learn mr c).records.any (fun r => r.merchant_norm == normKey mr)
        = true := countP_pos_any _ _ (by rw [h1]; exact Nat.one_pos)
    rw [learn_countP, if_pos hany2]
    exact h1

/-- Witness for C2: learning the same merchant twice into a one-record store
leaves exactly one record carrying its normalized key. -/
theorem learn_idempotent_unique_witness :
    (((MerchantCategorizer.mk [⟨"Cafe X", "Food & Drink", "CAFE X"⟩]).learn
        "Uber" "Transport").learn "Uber" "Transport").records.countP
      (fun r => r.merchant_norm == normKey "Uber") = 1 :=
  (learn_idempotent_unique (MerchantCategorizer.mk [⟨"Cafe X", "Food & Drink", "CAFE X"⟩])
    "Uber" "Transport" (by decide)).2.2

/-- Claim C10: when the normalized key of the merchant is already present,
learn changes only the category of the records matching that key: every
stored merchant display string and merchant_norm is unchanged, records whose
key differs are unchanged entirely, matching records receive the new
category, and the record count is unchanged. -/
theorem learn_frame (m : MerchantCategorizer) (mr c : String)
    (h : m.records.any (fun r => r.merchant_norm == normKey mr) = true) :
    (m.learn mr c).records.length = m.records.length
  ∧ ∀ (i : Nat) (r r2 : MerchantRecord),
      m.records[i]? = some r → (m.learn mr c).records[i]? = some r2 →
      r2.merchant = r.merchant ∧ r2.merchant_norm = r.merchant_norm ∧
      (r.merchant_norm ≠ normKey mr → r2 = r) ∧
      (r.merchant_norm = normKey mr → r2.category = c) := by
  rw [learn_records_present m mr c h]
  refine ⟨List.length_map _ _, ?_⟩
  intro i r r2 hr hr2
  rw [List.getElem?_map, hr] at hr2
  simp only [Option.map_some'] at hr2
  injection hr2 with hr2
  subst hr2
  refine ⟨updCategory_merchant _ _ r, updCategory_norm _ _ r, ?_, ?_⟩
  · intro hne
    unfold updCategory
    rw [if_neg (by simp [hne])]
  · intro heq
    unfold updCategory
    rw [if_pos (beq_iff_eq.mpr heq)]

/-- Witness for C10: relearning a present key (normalized from a differently
spaced and cased display string) does not change the record count. -/
theorem learn_frame_witness :
    ((MerchantCategorizer.mk [⟨"Uber Trip", "Transport", "UBER TRIP"⟩,
        ⟨"Cafe X", "Food & Drink", "CAFE X"⟩]).learn " uber trip " "Travel").records.length
      = (MerchantCategorizer.mk [⟨"Uber Trip", "Transport", "UBER TRIP"⟩,
        ⟨"Cafe X", "Food & Drink", "CAFE X"⟩]).records.length :=
  (learn_frame (MerchantCategorizer.mk [⟨"Uber Trip", "Transport", "UBER TRIP"⟩,
    ⟨"Cafe X", "Food & Drink", "CAFE X"⟩]) " uber trip " "Travel" (by decide)).1

/-- Claim C6: a sequence of learn calls starting from a fresh store produces
records with pairwise distinct normalized keys, and saving to the durable
store then reloading reproduces exactly the same records: only the merchant
and category columns are persisted and merchant_norm is recomputed on load,
so the merchant and category pairs are identical and the count is preserved. -/
theorem save_load_roundtrip (pairs : List (String × String)) :
    ((stateOfLearns pairs).records.map (fun r => r.merchant_norm)).Nodup
  ∧ loadFromRows (stateOfLearns pairs).save = stateOfLearns pairs := by
  have hP : goodState (stateOfLearns pairs)
      ∧ ((stateOfLearns pairs).records.map (fun r => r.merchant_norm)).Nodup := by
    unfold stateOfLearns
    apply foldlInv (fun s : MerchantCategorizer =>
      goodState s ∧ (s.records.map (fun r => r.merchant_norm)).Nodup)
    · constructor
      · intro r hr
        exact absurd hr (by simp)
      · simp
    · intro acc x hacc
      exact ⟨learn_goodState acc x.1 x.2 hacc.1, learn_nodup acc x.1 x.2 hacc.2⟩
  exact ⟨hP.2, load_saved_state _ hP.1⟩

/-- Claim C7: keyword classification evaluates the fixed ordered rule list with
case-insensitive word-boundary matching and returns the category of the first
rule whose pattern matches, or None if no rule matches; it is a pure function
(so two calls on identical text coincide), and a text matching rules of two
categories resolves to the category of the earlier rule in the list. -/
theorem classify_spec (t : String) :
    (classifyKeywords t = classifyKeywords t)
  ∧ (classifyKeywords t = none ↔
      ∀ pc ∈ KEYWORDS_TO_CATEGORY, patternMatches pc.1 t = false)
  ∧ (∀ (i : Nat) (hi : i < KEYWORDS_TO_CATEGORY.length),
      patternMatches (KEYWORDS_TO_CATEGORY.get ⟨i, hi⟩).1 t = true →
      (∀ (j : Nat) (hj : j < i),
        patternMatches (KEYWORDS_TO_CATEGORY.get ⟨j, Nat.lt_trans hj hi⟩).1 t = false) →
      classifyKeywords t = some (KEYWORDS_TO_CATEGORY.get ⟨i, hi⟩).2) := by
  refine ⟨rfl, firstMatch_none_iff KEYWORDS_TO_CATEGORY t, ?_⟩
  intro i hi hm hb
  exact firstMatch_at KEYWORDS_TO_CATEGORY t i hi hm hb

/-- Witness for C7: a text containing both a Health keyword (pharmacy) and a
Food and Drink keyword (restaurant) resolves to the earlier rule in the list,
Food and Drink. -/
theorem classify_spec_witness :
    classifyKeywords "pharmacy restaurant" = some "Food & Drink" := by
  have hb : ∀ (j : Nat) (hj : j < 1),
      patternMatches ((KEYWORDS_TO_CATEGORY.get
          ⟨j, Nat.lt_trans hj (by decide)⟩)).1 "pharmacy restaurant" = false := by
    intro j hj
    have hj0 : j = 0 := by omega
    subst hj0
    show patternMatches (KEYWORDS_TO_CATEGORY.get
      ⟨0, by decide⟩).1 "pharmacy restaurant" = false
    decide
  exact (classify_spec "pharmacy restaurant").2.2 1 (by decide) (by decide) hb

/-- Claim C9: for every oracle outcome, guess returns either None or one of the
nine categories of the keyword rule list; in particular never Income, Other,
Uncategorized or any free-text value. -/
theorem guess_range (r : HttpResult) (w : WikiOutcome) (c : String)
    (h : guess r w = some c) :
    c ∈ KEYWORDS_TO_CATEGORY.map (fun pc => pc.2)
  ∧ c ≠ "Income" ∧ c ≠ "Other" ∧ c ≠ "Uncategorized" := by
  have hmem : c ∈ KEYWORDS_TO_CATEGORY.map (fun pc => pc.2) := by
    cases ho : from_osm r with
    | none =>
      have hgw : guess r w = from_wikipedia w := by
        unfold guess guessTraced
        rw [ho]
      rw [hgw] at h
      exact from_wikipedia_mem w c h
    | some s =>
      by_cases hs : s = ""
      · have hgw : guess r w = from_wikipedia w := by
          unfold guess guessTraced
          rw [ho]
          simp [hs]
        rw [hgw] at h
        exact from_wikipedia_mem w c h
      · have hgw : guess r w = some s := by
          unfold guess guessTraced
          rw [ho]
          simp [hs]
        rw [hgw] at h
        injection h with h
        rw [h] at ho
        exact from_osm_mem r c ho
  obtain ⟨-, h2, h3, h4⟩ := keywordCats_ne c hmem
  exact ⟨hmem, h2, h3, h4⟩

/-- Witness for C9: a place response describing a hotel yields Travel, which is
one of the nine rule categories and none of the excluded values. -/
theorem guess_range_witness :
    "Travel" ∈ KEYWORDS_TO_CATEGORY.map (fun pc => pc.2)
  ∧ "Travel" ≠ "Income" ∧ "Travel" ≠ "Other" ∧ "Travel" ≠ "Uncategorized" :=
  guess_range (HttpResult.response 200 [⟨some "Grand Hotel", some "tourism", some "hotel"⟩])
    WikiOutcome.exn "Travel" (by decide)

/-- Claim C3: when every external source call fails (network error, non-200
status, empty result set, or parse failure), each source yields None rather
than propagating the error, guess returns None, and the pipeline routes the
merchant (when it is in the batch and missed by the saved map) to the manual
resolution list. -/
theorem guess_degrades (o : Oracle) (name : String) (cat : MerchantCategorizer)
    (batch : List String)
    (h1 : osmFailed (o.osmAt name) = true) (h2 : wikiFailed (o.wikiAt name) = true)
    (hmem : cat.get_category name = none) (hname : name ∈ batch) :
    from_osm (o.osmAt name) = none
  ∧ from_wikipedia (o.wikiAt name) = none
  ∧ webGuess o name = none
  ∧ name ∈ unknownMerchants (applyOnline o true (applyMemory cat batch)) := by
  have ho := osmFailed_none _ h1
  have hw := wikiFailed_none _ h2
  have hg : webGuess o name = none := by
    unfold webGuess guess guessTraced
    rw [ho]
    exact hw
  refine ⟨ho, hw, hg, ?_⟩
  rw [pipeline_map]
  unfold unknownMerchants
  rw [dedupFirst_mem]
  have hrow : resolveRow cat o true name = none := by
    unfold resolveRow
    rw [hmem]
    exact hg
  refine List.mem_map.mpr ⟨⟨name, resolveRow cat o true name⟩, ?_, rfl⟩
  refine List.mem_filter.mpr ⟨List.mem_map_of_mem _ hname, ?_⟩
  simp [hrow]

/-- Witness for C3: with both sources raising, an unmapped merchant in the
batch ends up in the manual resolution list and every stage yields None. -/
theorem guess_degrades_witness :
    from_osm (failOracle.osmAt "ACME") = none
  ∧ from_wikipedia (failOracle.wikiAt "ACME") = none
  ∧ webGuess failOracle "ACME" = none
  ∧ "ACME" ∈ unknownMerchants (applyOnline failOracle true
      (applyMemory (MerchantCategorizer.mk []) ["ACME"])) :=
  guess_degrades failOracle "ACME" (MerchantCategorizer.mk []) ["ACME"]
    (by decide) (by decide) (by decide) (by decide)

/-- Counterexample to claim C5 as stated: a successful place lookup whose text
matches no keyword rule makes `_from_osm` return None, and the Wikipedia source
IS consulted, so producing descriptive text does not short-circuit the second
source. -/
theorem shortcircuit_cex :
    ¬ ∀ (r : HttpResult) (w : WikiOutcome),
        osmDescribe r ≠ none → (guessTraced r w).2 = false := by
  intro hclaim
  have h := hclaim
    (HttpResult.response 200 [⟨some "Zzq Qqw", some "zq", some "wq"⟩])
    WikiOutcome.exn (by decide)
  exact absurd h (by decide)

/-- Claim C5 amended: the sources are attempted in priority order, and the
first source yielding a non-None CATEGORY short-circuits the second: whenever
`_from_osm` returns a category, the Wikipedia source is not consulted and the
guess is exactly that result. (Merely producing descriptive text does not
short-circuit: the text must also classify.) -/
theorem shortcircuit_amended (r : HttpResult) (w : WikiOutcome)
    (h : from_osm r ≠ none) :
    (guessTraced r w).2 = false ∧ guess r w = from_osm r := by
  rcases Option.ne_none_iff_exists'.mp h with ⟨c, hc⟩
  have hcne : c ≠ "" := (keywordCats_ne c (from_osm_mem r c hc)).1
  unfold guess guessTraced
  rw [hc]
  simp [hcne, hc]

/-- Witness for the amended C5: a supermarket place hit classifies, so the
Wikipedia source is skipped and the guess equals the place-source result. -/
theorem shortcircuit_amended_witness :
    (guessTraced (HttpResult.response 200
        [⟨some "Fresh Corner supermarket", some "shop", some "supermarket"⟩])
      WikiOutcome.exn).2 = false
  ∧ guess (HttpResult.response 200
        [⟨some "Fresh Corner supermarket", some "shop", some "supermarket"⟩])
      WikiOutcome.exn
      = from_osm (HttpResult.response 200
        [⟨some "Fresh Corner supermarket", some "shop", some "supermarket"⟩]) :=
  shortcircuit_amended _ _ (by decide)

/-- Counterexample to claim C4 as stated: the online step of app.py calls
web.guess once per unknown transaction ROW (and each manual prompt issues one
more call), so a merchant appearing in two transactions triggers three
external lookups, not at most one. -/
theorem distinct_external_cex :
    ¬ ∀ (cat : MerchantCategorizer) (o : Oracle) (batch : List String) (m : String),
        externalCallsFor cat o true batch m ≤ 1 := by
  intro hclaim
  have h := hclaim (MerchantCategorizer.mk []) failOracle
    ["WALMART 2291", "WALMART 2291"] "WALMART 2291"
  exact absurd h (by decide)

/-- Claim C4 amended: manual prompting does operate on distinct merchant
values (at most one prompt per merchant), and all transactions sharing a
merchant description receive the same category after the memory and online
steps; but external lookups are per unknown row, not per distinct merchant. -/
theorem distinct_resolution (cat : MerchantCategorizer) (o : Oracle) (enable : Bool)
    (batch : List String) (m : String) :
    manualPromptsFor (applyOnline o enable (applyMemory cat batch)) m ≤ 1
  ∧ ∀ r1 r2, r1 ∈ applyOnline o enable (applyMemory cat batch) →
      r2 ∈ applyOnline o enable (applyMemory cat batch) →
      r1.merchant = r2.merchant → r1.category = r2.category := by
  constructor
  · unfold manualPromptsFor
    exact count_dedupFirst_le_one _ m
  · intro r1 r2 h1 h2 hm
    rw [pipeline_map] at h1 h2
    obtain ⟨m1, hmem1, he1⟩ := List.mem_map.mp h1
    obtain ⟨m2, hmem2, he2⟩ := List.mem_map.mp h2
    subst he1
    subst he2
    have hmm : m1 = m2 := hm
    rw [hmm]

/-- Witness for the amended C4: a duplicated unknown merchant gets at most one
manual prompt. -/
theorem distinct_resolution_witness :
    manualPromptsFor (applyOnline failOracle true
      (applyMemory (MerchantCategorizer.mk []) ["ACME CO", "ACME CO"])) "ACME CO" ≤ 1 :=
  (distinct_resolution (MerchantCategorizer.mk []) failOracle true
    ["ACME CO", "ACME CO"] "ACME CO").1

/-- Claim C8 is contradicted by the code: an unparseable date cell raises out
of the eager parser.parse apply, aborting the whole batch (the errors coerce
flag of the surrounding to_datetime is dead code), and a row with an empty
merchant survives dropna because a stripped string is never NA; only the
non-numeric amount is silently dropped as claimed. Evaluation at the failing
inputs. -/
theorem normalizeBatch_failing :
    normalizeBatch [⟨DateCell.unparseable, "GOOD CAFE", AmountCell.numeric 5⟩,
        ⟨DateCell.parsed 1, "OK MART", AmountCell.numeric 3⟩] = Except.error ()
  ∧ normalizeBatch [⟨DateCell.parsed 1, "   ", AmountCell.numeric 5⟩]
      = Except.ok [⟨1, "", 5⟩]
  ∧ normalizeBatch [⟨DateCell.parsed 1, "SHOP", AmountCell.nan⟩] = Except.ok [] :=
  ⟨rfl, rfl, rfl⟩
